import Mathlib

/-!
# Verification of the statik schema-to-store compiler and content loader

Shallow embedding of the core of the `statik` static-site generator
(`statik/fields.py`, `statik/database.py`), together with proofs of the
specified properties of field construction, record resolution, duplicate
primary-key detection, association-table sharing, dependency-ordered row
loading and the query interface.

Python values are embedded as an explicit inductive type; Python `dict`s
as association lists (keys unique, insertion order preserved); Python
string operations (`split`, `strip`, `endswith`) as structurally
recursive functions over `List Char` so that every definition evaluates
inside the kernel.
-/

/-! ## Python string primitives

`str.split(sep)`, `str.strip()` and `str.endswith(suffix)` from Python,
over the character lists underlying Lean strings.  The fuel argument of
`pySplitGo` is the length of the string plus one, enough for the
recursion to terminate structurally. -/

/-- One step list of `str.split`: scan for the separator, emitting the
accumulated characters (held reversed in `cur`) when it is found. -/
def pySplitGo (sep : List Char) : Nat → List Char → List Char → List (List Char)
  | 0, s, cur => [cur.reverse ++ s]
  | _ + 1, [], cur => [cur.reverse]
  | fuel + 1, c :: rest, cur =>
      if sep.isPrefixOf (c :: rest)
      then cur.reverse :: pySplitGo sep fuel ((c :: rest).drop sep.length) []
      else pySplitGo sep fuel rest (c :: cur)

/-- Python `s.split(sep)` for a non-empty separator: splits on every
non-overlapping occurrence, keeping empty parts. -/
def pySplit (sep s : List Char) : List (List Char) :=
  pySplitGo sep (s.length + 1) s []

/-- Python `s.strip()`: drop leading and trailing whitespace. -/
def pyStrip (s : List Char) : List Char :=
  ((s.dropWhile Char.isWhitespace).reverse.dropWhile Char.isWhitespace).reverse

/-- Python `s.split(sep)` lifted to `String`. -/
def strSplit (sep s : String) : List String :=
  (pySplit sep.data s.data).map String.mk

/-- Python `s.strip()` lifted to `String`. -/
def strStrip (s : String) : String :=
  String.mk (pyStrip s.data)

/-- Python `s.endswith(suffix)` lifted to `String`. -/
def strEndsWith (suffix s : String) : Bool :=
  suffix.data.isSuffixOf s.data

/-- Python `s.lower()` lifted to `String` (ASCII lower-casing, which is
all that model names use). -/
def strLower (s : String) : String :=
  String.mk (s.data.map Char.toLower)

/-! ## Python values

Model field values come from parsed YAML: scalars and lists of scalars
(nested collections never appear as model field values, since no column
or relation kind could store them). -/

/-- A scalar Python value as it appears in parsed record data. -/
inductive PyScalar where
  | s (v : String)
  | i (n : Int)
  | b (v : Bool)
  | pyNone
deriving DecidableEq

/-- A Python value held in a raw record's attribute map. -/
inductive PyVal where
  | scalar (v : PyScalar)
  | list (xs : List PyScalar)
deriving DecidableEq

/-- Python `repr` of a scalar. -/
def PyScalar.pyRepr : PyScalar → String
  | .s v => "'" ++ v ++ "'"
  | .i n => toString n
  | .b v => if v then "True" else "False"
  | .pyNone => "None"

/-- Python `str` of a scalar (as used by `"%s" % value` interpolation). -/
def PyScalar.pyStr : PyScalar → String
  | .s v => v
  | v => v.pyRepr

/-- Python `str` of a value (as used by `"%s" % value` interpolation). -/
def PyVal.pyStr : PyVal → String
  | .scalar v => v.pyStr
  | .list xs => "[" ++ String.intercalate ", " (xs.map PyScalar.pyRepr) ++ "]"

/-! ## Python dictionaries

Association lists standing for Python `dict`s: lookup finds the first
binding, assignment replaces an existing binding in place or appends a
new one, deletion removes the binding. -/

/-- Python `d[k]` lookup (`None`-free: `none` means the key is absent,
which in Python raises `KeyError`). -/
def dictGet {α : Type} (d : List (String × α)) (k : String) : Option α :=
  (d.find? (fun kv => kv.1 = k)).map (·.2)

/-- Python `d[k] = v`. -/
def dictSet {α : Type} (d : List (String × α)) (k : String) (v : α) :
    List (String × α) :=
  if d.any (fun kv => kv.1 = k)
  then d.map (fun kv => if kv.1 = k then (k, v) else kv)
  else d ++ [(k, v)]

/-- Python `del d[k]`. -/
def dictDel {α : Type} (d : List (String × α)) (k : String) :
    List (String × α) :=
  d.filter (fun kv => kv.1 ≠ k)

theorem dictGet_nil {α : Type} (k : String) :
    dictGet ([] : List (String × α)) k = none := rfl

theorem dictGet_cons {α : Type} (kv : String × α) (d : List (String × α))
    (k : String) :
    dictGet (kv :: d) k = if kv.1 = k then some kv.2 else dictGet d k := by
  unfold dictGet
  by_cases hk : kv.1 = k
  · rw [List.find?_cons_of_pos _ (by simpa using hk), if_pos hk,
      Option.map_some']
  · rw [List.find?_cons_of_neg _ (by simpa using hk), if_neg hk]

theorem dictGet_dictSet_self {α : Type} (d : List (String × α)) (k : String) (v : α) :
    dictGet (dictSet d k v) k = some v := by
  unfold dictSet
  by_cases h : d.any (fun kv => kv.1 = k)
  · rw [if_pos h]
    induction d with
    | nil => simp at h
    | cons kv rest ih =>
        by_cases hk : kv.1 = k
        · simp [List.map_cons, hk, dictGet_cons]
        · simp only [List.any_cons, Bool.or_eq_true, decide_eq_true_eq] at h
          rcases h with h | h
          · exact absurd h hk
          · rw [List.map_cons, if_neg hk, dictGet_cons, if_neg hk]
            exact ih (by simpa using h)
  · rw [if_neg h]
    induction d with
    | nil => simp [dictGet_cons]
    | cons kv rest ih =>
        simp only [List.any_cons, Bool.or_eq_true, decide_eq_true_eq, not_or] at h
        rw [List.cons_append, dictGet_cons, if_neg h.1]
        exact ih (by simpa using h.2)

theorem dictGet_dictSet_other {α : Type} (d : List (String × α)) (k k' : String)
    (v : α) (hne : k' ≠ k) : dictGet (dictSet d k v) k' = dictGet d k' := by
  unfold dictSet
  by_cases h : d.any (fun kv => kv.1 = k)
  · rw [if_pos h]
    clear h
    induction d with
    | nil => simp
    | cons kv rest ih =>
        by_cases hk : kv.1 = k
        · have hkv : ¬ (kv.1 = k') := by rw [hk]; exact fun hc => hne hc.symm
          rw [List.map_cons, if_pos hk, dictGet_cons, dictGet_cons,
            if_neg (fun hc : k = k' => hne hc.symm), if_neg hkv, ih]
        · rw [List.map_cons, if_neg hk, dictGet_cons, dictGet_cons, ih]
  · rw [if_neg h]
    clear h
    induction d with
    | nil =>
        rw [List.nil_append, dictGet_cons, if_neg (fun hc : k = k' => hne hc.symm)]
    | cons kv rest ih =>
        rw [List.cons_append, dictGet_cons, dictGet_cons, ih]

theorem dictGet_dictDel_other {α : Type} (d : List (String × α)) (k k' : String)
    (hne : k' ≠ k) : dictGet (dictDel d k) k' = dictGet d k' := by
  unfold dictDel
  induction d with
  | nil => simp
  | cons kv rest ih =>
      by_cases hk : kv.1 = k
      · have hkv : ¬ (kv.1 = k') := by rw [hk]; exact fun hc => hne hc.symm
        rw [List.filter_cons_of_neg (by simpa using hk), dictGet_cons,
          if_neg hkv, ih]
      · rw [List.filter_cons_of_pos (by simpa using hk), dictGet_cons,
          dictGet_cons, ih]

theorem dictGet_dictDel_self {α : Type} (d : List (String × α)) (k : String) :
    dictGet (dictDel d k) k = none := by
  unfold dictDel
  induction d with
  | nil => rfl
  | cons kv rest ih =>
      by_cases hk : kv.1 = k
      · rw [List.filter_cons_of_neg (by simpa using hk)]
        exact ih
      · rw [List.filter_cons_of_pos (by simpa using hk), dictGet_cons, if_neg hk]
        exact ih

/-! ## Errors (`statik/errors.py`)

One constructor per error class raised in the embedded code, carrying the
exact message string the source builds at the raise site.  `keyError`
stands for Python's built-in `KeyError`, raised by a failing `d[k]`
lookup; it carries only the offending key, as in Python. -/

/-- Error classes of the statik core, plus Python's built-in `KeyError`. -/
inductive StatikError where
  | invalidFieldType (message : String)
  | invalidModelCollectionData (message : String)
  | duplicateModelInstance (message : String)
  | keyError (key : String)
deriving DecidableEq

/-- `e` is one of the documented statik error classes (as opposed to a
raw Python exception such as `KeyError`). -/
def StatikError.isDocumented : StatikError → Bool
  | .keyError _ => false
  | _ => true

/-- The substring `sub` occurs in `msg`. -/
def mentions (msg sub : String) : Prop :=
  ∃ pre post, msg = pre ++ sub ++ post

theorem str_append_assoc (a b c : String) : a ++ b ++ c = a ++ (b ++ c) := by
  apply String.ext
  simp [String.data_append, List.append_assoc]

theorem mentions_of_eq {msg pre sub post : String}
    (h : msg = pre ++ (sub ++ post)) : mentions msg sub :=
  ⟨pre, post, by rw [h, str_append_assoc]⟩

/-! ## Field construction (`statik/fields.py`)

`construct_field` parses the compact type expression
`<Type>[]? -> <backPopulatesName>?`.  The field classes of `fields.py`
are embedded as the tag `FieldClass`; every class stores `name`,
`field_type` (the storage-type name for primitive classes, the target
model name for relation classes) and `back_populates`. -/

/-- The field class hierarchy of `fields.py`, one tag per concrete
class. -/
inductive FieldClass where
  | stringF
  | dateTimeF
  | integerF
  | booleanF
  | contentF
  | textF
  | foreignKeyF
  | manyToManyF
deriving DecidableEq

/-- A constructed model field (`StatikModelField` and subclasses). -/
structure StatikModelField where
  name : String
  cls : FieldClass
  field_type : String
  back_populates : Option String
deriving DecidableEq

/-- The `FIELD_TYPES` table of `fields.py`, mapping a primitive type
name to the field class constructed for it. -/
def FIELD_TYPES : List (String × FieldClass) :=
  [("String", .stringF), ("DateTime", .dateTimeF), ("Integer", .integerF),
   ("Boolean", .booleanF), ("Content", .contentF), ("Text", .textF)]

/-- `construct_field` (fields.py lines 90–115).  The type expression is
split on `->`; the part before it is stripped and split on `[]` to get
the base type; a base type that is neither a primitive nor a declared
model name is an `InvalidFieldTypeError`; a primitive base type yields
its mapped field class (any trailing `[]` is not consulted on this
path); otherwise a trailing `[]` on the stripped first part selects
`StatikManyToManyField` and its absence `StatikForeignKeyField`. -/
def construct_field (name field_type : String) (all_models : List String) :
    Except StatikError StatikModelField :=
  let field_type_parts := strSplit "->" field_type
  let headPart := strStrip (field_type_parts.headD "")
  let baseType := strStrip ((strSplit "[]" headPart).headD "")
  let back_populates :=
    if field_type_parts.length > 1
    then some (strStrip ((field_type_parts.drop 1).headD ""))
    else none
  if ¬ (FIELD_TYPES.any (fun kv => kv.1 = baseType))
      ∧ ¬ (all_models.contains baseType) then
    .error (.invalidFieldType ("Invalid field type: " ++ baseType))
  else
    match dictGet FIELD_TYPES baseType with
    | some cls => .ok ⟨name, cls, baseType, back_populates⟩
    | none =>
        if strEndsWith "[]" headPart
        then .ok ⟨name, .manyToManyF, baseType, back_populates⟩
        else .ok ⟨name, .foreignKeyF, baseType, back_populates⟩

deriving instance DecidableEq for Except

example :
    construct_field "author" "Person" ["Person"]
      = .ok ⟨"author", .foreignKeyF, "Person", none⟩ := by decide

example :
    construct_field "widgets" "Widget[] -> posts" ["Widget"]
      = .ok ⟨"widgets", .manyToManyF, "Widget", some "posts"⟩ := by decide

example :
    construct_field "title" "String" ["Post"]
      = .ok ⟨"title", .stringF, "String", none⟩ := by decide

example :
    construct_field "tags" "String[]" ["Post"]
      = .ok ⟨"tags", .stringF, "String", none⟩ := by decide

/-! ## Models and the session

`StatikModel` (statik/models.py, consumed by database.py) carries the
ordered field list (`field_names` together with the per-name `getattr`),
the optional content field and the derived additional relationships
(`find_additional_rels`).  The session is the in-memory store: for each
model name, the primary keys of the rows added so far, in insertion
order (each row is identified here by its primary-key value). -/

/-- One derived relationship from `model.additional_rels`: target model,
optional `back_populates` name and, for many-to-many relations, the
`secondary` pair of model names handed to the association-table
constructor. -/
structure AdditionalRel where
  to_model : String
  back_populates : Option String
  secondary : Option (String × String)
deriving DecidableEq

/-- A statik model: name, ordered declared fields, at most one content
field, and relationships derived from other models' declarations. -/
structure StatikModel where
  name : String
  fields : List StatikModelField
  content_field : Option String
  additional_rels : List (String × AdditionalRel)
deriving DecidableEq

/-- The loaded-row store: model name ↦ primary keys of its rows, in
load order. -/
abbrev Session := List (String × List PyVal)

/-- `session.add` of a row of the given model. -/
def sessionAdd (session : Session) (modelName : String) (pk : PyVal) : Session :=
  dictSet session modelName (((dictGet session modelName).getD []) ++ [pk])

/-! ## Record resolution (`StatikDatabaseInstance.__init__`)

A raw record's attribute map holds `FieldVal.val` entries; the
many-to-many branch overwrites a field with the fetched row objects,
`FieldVal.rows` (each row identified by its primary key).
`underscore_var_names` (statik/utils.py, not under src/) normalizes
attribute names and is the identity on already-normalized keys, which is
how the attribute maps are taken here. -/

/-- A value held in `field_values`: either a raw Python value or the
list of rows fetched for a many-to-many field. -/
inductive FieldVal where
  | val (v : PyVal)
  | rows (rs : List PyVal)
deriving DecidableEq

/-- Python's `isinstance(value, list)` on a `field_values` entry (a
fetched row list is also a Python list). -/
def FieldVal.isPyList : FieldVal → Bool
  | .val (.list _) => true
  | .rows _ => true
  | .val (.scalar _) => false

/-- The values handed to `other_model.pk.in_(...)`: the listed scalars
for a raw list value; fetched row objects never equal a scalar primary
key, so they yield no `in_` matches. -/
def FieldVal.inValues : FieldVal → List PyVal
  | .val (.list xs) => xs.map PyVal.scalar
  | _ => []

/-- Python `str` of a `field_values` entry, as interpolated by `"%s"`
(a fetched-row list is rendered from the rows' primary keys). -/
def FieldVal.pyStr : FieldVal → String
  | .val v => v.pyStr
  | .rows rs => "[" ++ String.intercalate ", " (rs.map PyVal.pyStr) ++ "]"

/-- The row primary key used when a resolved record is added to the
session: the value stored under `pk` (never a fetched relation in any
reachable state, since only many-to-many branches write `rows` and they
write them under the relation field's own name). -/
def FieldVal.asRowPk : FieldVal → PyVal
  | .val p => p
  | .rows _ => .scalar .pyNone

/-- One iteration of the field loop of
`StatikDatabaseInstance.__init__` (database.py lines 197–219): a
`ForeignKey` field whose name is present is renamed to `<field>_id`
with its value kept as-is; a `ManyToMany` field's value is read
unconditionally (a missing key is Python's `KeyError`), must be a list
(else `InvalidFieldTypeError` naming `<model>.<field>`), and is
replaced by the already-loaded rows of the target model whose primary
key occurs in the list; every other field class is left untouched. -/
def runFieldStep (modelName : String) (session : Session)
    (f : StatikModelField) (fv : List (String × FieldVal)) :
    Except StatikError (List (String × FieldVal)) :=
  if f.cls = .foreignKeyF then
    match dictGet fv f.name with
    | some v => .ok (dictDel (dictSet fv (f.name ++ "_id") v) f.name)
    | none => .ok fv
  else if f.cls = .manyToManyF then
    match dictGet fv f.name with
    | none => .error (.keyError f.name)
    | some v =>
        if v.isPyList then
          let fetched :=
            ((dictGet session f.field_type).getD []).filter
              (fun pk => v.inValues.contains pk)
          .ok (dictSet fv f.name (.rows fetched))
        else
          .error (.invalidFieldType
            ("ManyToMany field values are expected to be lists (see "
              ++ modelName ++ "." ++ f.name ++ ")"))
  else .ok fv

/-- The field loop of `StatikDatabaseInstance.__init__` (database.py
lines 197–219), iterating `runFieldStep` over the declared fields in
order. -/
def runFieldLoop (modelName : String) (session : Session) :
    List StatikModelField → List (String × FieldVal) →
    Except StatikError (List (String × FieldVal))
  | [], fv => .ok fv
  | f :: rest, fv =>
      match runFieldStep modelName session f fv with
      | .error e => .error e
      | .ok fv' => runFieldLoop modelName session rest fv'

/-- The `field_values` map before the field loop (database.py lines
192–194): the attribute map with `pk` forced to the instance's name. -/
def initialFieldValues (pkVal : PyVal) (vars : List (String × PyVal)) :
    List (String × FieldVal) :=
  dictSet (vars.map (fun kv => (kv.1, FieldVal.val kv.2))) "pk" (.val pkVal)

/-- `StatikDatabaseInstance.__init__` (database.py lines 182–225):
build `field_values` from the attribute map, force `pk` to the
instance's name, run the field loop, then populate the content field
from the record's body content. -/
def resolveInstance (model : StatikModel) (session : Session) (pkVal : PyVal)
    (vars : List (String × PyVal)) (content : PyVal) :
    Except StatikError (List (String × FieldVal)) :=
  match runFieldLoop model.name session model.fields
      (initialFieldValues pkVal vars) with
  | .error e => .error e
  | .ok fv =>
      .ok (match model.content_field with
           | some cf => dictSet fv cf (.val content)
           | none => fv)

/-! ## The content loaders (`StatikDatabase`)

Collection mode reads `_all.yml` (a list whose items must be maps with a
`pk` key); per-file mode reads one file per record.  `ContentLoadable`
(statik/common.py, not under src/) is modelled from the spec: it
supplies each file's primary key (the file's base name unless an
explicit `pk` is present), its parsed attribute map and its body
content. -/

/-- One item of a collection `_all.yml` list: a parsed map, or any
non-map value (which the loader rejects). -/
inductive CollItem where
  | mapItem (entries : List (String × PyVal))
  | other
deriving DecidableEq

/-- Modelled from the spec: one record file as presented by
`ContentLoadable` (statik/common.py, not under src/): the primary key
already derived from the file (base name or explicit `pk`), the parsed
attribute map, and the body content. -/
structure FileEntry where
  name : String
  vars : List (String × PyVal)
  content : String
deriving DecidableEq

/-- The loop of `load_model_data_collection` (database.py lines
118–141): validate the item, resolve it, reject a primary key already
seen for this model with `DuplicateModelInstanceError`, then add the
row. -/
def loadCollGo (model : StatikModel) : Session → List CollItem →
    List FieldVal → Except StatikError Session
  | session, [], _ => .ok session
  | session, item :: rest, seen =>
      match item with
      | .other =>
          .error (.invalidModelCollectionData
            ("Model " ++ model.name
              ++ " collection _all.yml contains invalid item(s)"))
      | .mapItem entries =>
          match dictGet entries "pk" with
          | none =>
              .error (.invalidModelCollectionData
                ("Model " ++ model.name
                  ++ " collection _all.yml contains invalid item(s)"))
          | some pkVal =>
              match resolveInstance model session pkVal entries
                  (.scalar .pyNone) with
              | .error e => .error e
              | .ok fv =>
                  match dictGet fv "pk" with
                  | none => .error (.keyError "pk")
                  | some stored =>
                      if stored ∈ seen then
                        .error (.duplicateModelInstance
                          ("More than one entry with the name \""
                            ++ stored.pyStr ++ "\" exists for model "
                            ++ model.name))
                      else
                        loadCollGo model
                          (sessionAdd session model.name stored.asRowPk)
                          rest (stored :: seen)

/-- `load_model_data_collection` (database.py lines 108–141) after the
collection file has been read and checked to be a list. -/
def load_model_data_collection (model : StatikModel) (session : Session)
    (collection : List CollItem) : Except StatikError Session :=
  loadCollGo model session collection []

/-- The loop of `load_model_data_from_files` (database.py lines
143–163): resolve each entry file in enumeration order, with the same
duplicate-primary-key check as collection mode. -/
def loadFilesGo (model : StatikModel) : Session → List FileEntry →
    List FieldVal → Except StatikError Session
  | session, [], _ => .ok session
  | session, e :: rest, seen =>
      match resolveInstance model session (.scalar (.s e.name)) e.vars
          (.scalar (.s e.content)) with
      | .error err => .error err
      | .ok fv =>
          match dictGet fv "pk" with
          | none => .error (.keyError "pk")
          | some stored =>
              if stored ∈ seen then
                .error (.duplicateModelInstance
                  ("More than one entry with the name \""
                    ++ stored.pyStr ++ "\" exists for model "
                    ++ model.name))
              else
                loadFilesGo model
                  (sessionAdd session model.name stored.asRowPk)
                  rest (stored :: seen)

/-- `load_model_data_from_files` (database.py lines 143–163), over the
enumerated entry files in directory-listing order. -/
def load_model_data_from_files (model : StatikModel) (session : Session)
    (entry_files : List FileEntry) : Except StatikError Session :=
  loadFilesGo model session entry_files []

/-! ## Schema compilation (`db_model_factory`)

Tables are embedded as a name plus ordered columns; a column optionally
carries the model whose `pk` its foreign key references.  Relationship
bindings (`relationship(...)`) add no columns; only their effect on the
association-table registry is kept.  The registry stands for the module
`globals()` entries in which `db_model_factory` memoizes association
tables. -/

/-- A compiled column: its name and, when it is a foreign-key column,
the model whose `pk` it references. -/
structure DBColumn where
  name : String
  fkTarget : Option String
deriving DecidableEq

/-- A compiled table. -/
structure DBTable where
  name : String
  columns : List DBColumn
deriving DecidableEq

/-- Lexicographic order on character lists, the order underlying
Python's string comparison (by code point). -/
def lexLe : List Char → List Char → Bool
  | [], _ => true
  | _ :: _, [] => false
  | a :: as, b :: bs =>
      if a = b then lexLe as bs
      else decide (a.toNat < b.toNat)

theorem lexLe_total (x y : List Char) : lexLe x y = true ∨ lexLe y x = true := by
  induction x generalizing y with
  | nil => left; rfl
  | cons a as ih =>
      cases y with
      | nil => right; rfl
      | cons b bs =>
          by_cases hab : a = b
          · subst hab
            rcases ih bs with h | h
            · left; simpa [lexLe] using h
            · right; simpa [lexLe] using h
          · have hne : a.toNat ≠ b.toNat := by
              intro hc
              exact hab (Char.eq_of_val_eq (UInt32.ext hc))
            rcases Nat.lt_or_ge a.toNat b.toNat with h | h
            · left; simp [lexLe, hab, h]
            · right
              have hba : b ≠ a := fun hc => hab hc.symm
              have : b.toNat < a.toNat := lt_of_le_of_ne h (fun hc => hne hc.symm)
              simp [lexLe, hba, this]

theorem lexLe_antisymm {x y : List Char} (hxy : lexLe x y = true)
    (hyx : lexLe y x = true) : x = y := by
  induction x generalizing y with
  | nil =>
      cases y with
      | nil => rfl
      | cons b bs => simp [lexLe] at hyx
  | cons a as ih =>
      cases y with
      | nil => simp [lexLe] at hxy
      | cons b bs =>
          by_cases hab : a = b
          · subst hab
            simp only [lexLe, if_pos rfl] at hxy hyx
            rw [ih hxy hyx]
          · have hba : b ≠ a := fun hc => hab hc.symm
            simp only [lexLe, if_neg hab, decide_eq_true_eq] at hxy
            simp only [lexLe, if_neg hba, decide_eq_true_eq] at hyx
            exact absurd hyx (Nat.lt_asymm hxy)

/-- Python `s1 <= s2` on strings (code-point lexicographic order). -/
def strLe (s t : String) : Bool := lexLe s.data t.data

/-- Modelled from the spec: `calculate_association_table_name`
(statik/utils.py, not under src/) computes the canonical association
table name from the *unordered* pair of participating model names, so
that both directions of the same relation map to one name: the two
names joined in sorted order. -/
def calculate_association_table_name (model1_name model2_name : String) :
    String :=
  if strLe model1_name model2_name
  then model1_name ++ "_" ++ model2_name
  else model2_name ++ "_" ++ model1_name

theorem calculate_association_table_name_comm (a b : String) :
    calculate_association_table_name b a
      = calculate_association_table_name a b := by
  unfold calculate_association_table_name strLe
  rcases lexLe_total a.data b.data with h | h
  · by_cases h' : lexLe b.data a.data = true
    · have : a.data = b.data := lexLe_antisymm h h'
      have hab : a = b := String.ext this
      rw [hab]
    · simp only [h', Bool.false_eq_true, if_false, h, if_true]
  · by_cases h' : lexLe a.data b.data = true
    · have : a.data = b.data := lexLe_antisymm h' h
      have hab : a = b := String.ext this
      rw [hab]
    · simp only [h', Bool.false_eq_true, if_false, h, if_true]

/-- The association-table registry: the `globals()` entries that
`db_model_factory` uses to memoize association tables process-wide. -/
abbrev AssocRegistry := List (String × DBTable)

/-- `get_or_create_association_table` (database.py lines 237–252):
compute the canonical name for the pair of models; return the table
already registered under that name if any; otherwise create the
two-foreign-key association table, register it, and return it. -/
def get_or_create_association_table (g : AssocRegistry)
    (model1_name model2_name : String) : AssocRegistry × DBTable :=
  let tname := calculate_association_table_name model1_name model2_name
  match dictGet g tname with
  | some t => (g, t)
  | none =>
      let t : DBTable :=
        { name := tname,
          columns :=
            [⟨strLower model1_name ++ "_pk", some model1_name⟩,
             ⟨strLower model2_name ++ "_pk", some model2_name⟩] }
      (dictSet g tname t, t)

/-- The `SQLALCHEMY_FIELD_MAPPER` keys (database.py lines 26–33). -/
def SQLALCHEMY_FIELD_MAPPER_KEYS : List String :=
  ["String", "DateTime", "Integer", "Boolean", "Content", "Text"]

/-- The per-field step of `db_model_factory` (database.py lines
274–322): a primitive storage type adds a plain column; a field typed
by another model adds a `<field>_id` foreign-key column when it is a
`ForeignKey` field, or obtains the shared association table (adding no
column) when it is a `ManyToMany` field; any other type is an
`InvalidFieldTypeError`.  Returns the grown column list and registry. -/
def factoryFieldStep (modelName : String) (all_models : List String)
    (st : List DBColumn × AssocRegistry) (f : StatikModelField) :
    Except StatikError (List DBColumn × AssocRegistry) :=
  let (cols, g) := st
  if SQLALCHEMY_FIELD_MAPPER_KEYS.contains f.field_type then
    .ok (cols ++ [⟨f.name, none⟩], g)
  else if all_models.contains f.field_type then
    if f.cls = .foreignKeyF then
      .ok (cols ++ [⟨f.name ++ "_id", some f.field_type⟩], g)
    else if f.cls = .manyToManyF then
      let (g', _) := get_or_create_association_table g modelName f.field_type
      .ok (cols, g')
    else
      -- neither `isinstance` branch applies: the source adds nothing
      .ok (cols, g)
  else
    .error (.invalidFieldType
      ("Unsupported database field type: " ++ f.field_type))

/-- Fold `factoryFieldStep` over the declared fields. -/
def factoryFields (modelName : String) (all_models : List String) :
    List StatikModelField → List DBColumn × AssocRegistry →
    Except StatikError (List DBColumn × AssocRegistry)
  | [], st => .ok st
  | f :: rest, st =>
      match factoryFieldStep modelName all_models st f with
      | .error e => .error e
      | .ok st' => factoryFields modelName all_models rest st'

/-- The additional-relationship loop of `db_model_factory` (database.py
lines 262–271): each derived relationship with a `secondary` pair
obtains the shared association table; no column is added. -/
def factoryAdditionalRels (g : AssocRegistry) :
    List (String × AdditionalRel) → AssocRegistry
  | [] => g
  | (_, rel) :: rest =>
      match rel.secondary with
      | some (m1, m2) =>
          factoryAdditionalRels (get_or_create_association_table g m1 m2).1 rest
      | none => factoryAdditionalRels g rest

/-- `db_model_factory` (database.py lines 235–334): a `pk` string
primary-key column first, then the derived relationships, then one
column (or association-table binding) per declared field. -/
def db_model_factory (g : AssocRegistry) (model : StatikModel)
    (all_models : List String) : Except StatikError (AssocRegistry × DBTable) :=
  let g1 := factoryAdditionalRels g model.additional_rels
  match factoryFields model.name all_models model.fields
      ([⟨"pk", none⟩], g1) with
  | .error e => .error e
  | .ok (cols, g2) => .ok (g2, { name := model.name, columns := cols })

/-! ## Dependency-ordered loading (`load_all_model_data`)

`StatikDatabase.load_all_model_data` (database.py lines 70–83) iterates
`Base.metadata.sorted_tables` and loads each table's records wholly
before moving to the next; tables with no backing model (the
association tables) are skipped.  Modelled from the spec:
`sorted_tables` is SQLAlchemy's, not this repository's, and is embedded
by its documented contract, "a topologically safe table order" — a table
is emitted only once every foreign-key dependency other than itself is
already emitted (dependencies on tables outside the set are ignored);
`none` when no such order exists. -/

/-- The models whose `pk` a table's foreign-key columns reference. -/
def tableDeps (t : DBTable) : List String :=
  t.columns.filterMap (·.fkTarget)

/-- All of `t`'s dependencies are satisfied: each is `t` itself, already
emitted, or not a table of this schema at all. -/
def depsSatisfied (allNames emittedNames : List String) (t : DBTable) : Bool :=
  (tableDeps t).all
    (fun d => d = t.name || emittedNames.contains d || !(allNames.contains d))

/-- The first list element satisfying `p`, together with the remaining
elements in order. -/
def pickFirst (p : DBTable → Bool) : List DBTable → Option (DBTable × List DBTable)
  | [] => none
  | t :: ts =>
      if p t then some (t, ts)
      else (pickFirst p ts).map (fun tr => (tr.1, t :: tr.2))

/-- Fuelled emission loop of the topological sort. -/
def topoGo (allNames : List String) : Nat → List DBTable → List DBTable →
    Option (List DBTable)
  | _, acc, [] => some acc
  | 0, _, _ :: _ => none
  | fuel + 1, acc, t0 :: rest0 =>
      match pickFirst (depsSatisfied allNames (acc.map (·.name))) (t0 :: rest0) with
      | none => none
      | some (t, rest) => topoGo allNames fuel (acc ++ [t]) rest

/-- Modelled from the spec: `Base.metadata.sorted_tables`, the
dependency-sorted table sequence that `load_all_model_data` iterates. -/
def sorted_tables (tables : List DBTable) : Option (List DBTable) :=
  topoGo (tables.map (·.name)) tables.length [] tables

/-- The rows loaded for one table, tagged with the table name; tables
with no backing model (association tables) load nothing
(database.py lines 76–83). -/
def tableRows (models : List String) (data : String → List PyVal)
    (t : DBTable) : List (String × PyVal) :=
  if models.contains t.name
  then (data t.name).map (fun v => (t.name, v))
  else []

/-- `load_all_model_data` (database.py lines 70–83) as the sequence of
rows it loads: each table of the sorted order contributes its rows as a
contiguous block, in order. -/
def load_all_model_data (order : List DBTable) (models : List String)
    (data : String → List PyVal) : List (String × PyVal) :=
  order.flatMap (tableRows models data)

/-- Every prefix of the emission order has its dependencies behind it:
each table's foreign-key targets are the table itself, already-emitted
names, or names outside the schema. -/
def depsBeforeAux (allNames : List String) : List String → List DBTable → Prop
  | _, [] => True
  | emitted, t :: rest =>
      (∀ d ∈ tableDeps t, d = t.name ∨ d ∈ emitted ∨ d ∉ allNames) ∧
      depsBeforeAux allNames (emitted ++ [t.name]) rest

/-! ## The query interface (`StatikDatabase.query`)

The source (database.py lines 165–177) interpolates the externally
supplied query text into `result = <query>` and hands it to
`exec`/`compile` with the module globals — which hold the live `session`
(line 51) and every generated model class (line 333).  There is no
parsing, validation or read-only restriction of any kind: whatever the
text does to the session happens.  The executable payloads relevant to
the store are embedded as `QueryCode`, with their Python meaning
`execPyCode`; `StatikDatabase.query` evaluates its payload
unconditionally, exactly as `exec` does. -/

/-- Store-relevant Python payloads a query string can carry: the read
shapes the views use (`session.query(M).all()`, filtered variants) and
mutating calls on the live session (`session.add(...)`,
`session.query(M).delete()`). -/
inductive QueryCode where
  | queryAll (model : String)
  | queryFilterPkIn (model : String) (pks : List PyVal)
  | addRow (model : String) (pk : PyVal)
  | deleteAllRows (model : String)
deriving DecidableEq

/-- The value bound to `result` by the executed code. -/
inductive QueryResult where
  | rowsR (rs : List PyVal)
  | countR (n : Nat)
  | noneR
deriving DecidableEq

/-- The Python meaning of a payload, as `exec` runs it against the live
session. -/
def execPyCode : QueryCode → Session → Session × QueryResult
  | .queryAll m, s => (s, .rowsR ((dictGet s m).getD []))
  | .queryFilterPkIn m pks, s =>
      (s, .rowsR (((dictGet s m).getD []).filter (fun pk => pks.contains pk)))
  | .addRow m pk, s => (sessionAdd s m pk, .noneR)
  | .deleteAllRows m, s =>
      (dictSet s m [], .countR ((dictGet s m).getD []).length)

/-- The payload implies mutation of the store. -/
def impliesMutation : QueryCode → Bool
  | .addRow _ _ => true
  | .deleteAllRows _ => true
  | _ => false

/-- `StatikDatabase.query` (database.py lines 165–177): `exec` the
payload against the live session with no validation and no rejection
branch, returning the `result` binding. -/
def StatikDatabase.query (q : QueryCode) (session : Session) :
    Session × QueryResult :=
  execPyCode q session

/-! ## Helper lemmas -/

theorem dictGet_eq_none_iff_not_any {α : Type} (d : List (String × α))
    (k : String) :
    dictGet d k = none ↔ ¬ (d.any (fun kv => kv.1 = k) = true) := by
  induction d with
  | nil => simp [dictGet_nil]
  | cons kv rest ih =>
      rw [dictGet_cons, List.any_cons]
      by_cases hk : kv.1 = k
      · simp [hk]
      · simp only [if_neg hk, ih]
        simp [hk]

theorem runFieldLoop_cons (mn : String) (s : Session) (f : StatikModelField)
    (rest : List StatikModelField) (fv : List (String × FieldVal)) :
    runFieldLoop mn s (f :: rest) fv =
      match runFieldStep mn s f fv with
      | .error e => .error e
      | .ok fv' => runFieldLoop mn s rest fv' := rfl

theorem runFieldLoop_append (mn : String) (s : Session)
    (fs1 fs2 : List StatikModelField) (fv : List (String × FieldVal)) :
    runFieldLoop mn s (fs1 ++ fs2) fv =
      match runFieldLoop mn s fs1 fv with
      | .error e => .error e
      | .ok fv' => runFieldLoop mn s fs2 fv' := by
  induction fs1 generalizing fv with
  | nil => rfl
  | cons f rest ih =>
      rw [List.cons_append, runFieldLoop_cons, runFieldLoop_cons]
      cases runFieldStep mn s f fv with
      | error e => rfl
      | ok fv' => exact ih fv'

theorem append_id_ne_pk (s : String) : s ++ "_id" ≠ "pk" := by
  intro h
  have hlen := congrArg String.length h
  rw [String.length_append] at hlen
  have h3 : ("_id" : String).length = 3 := rfl
  have h2 : ("pk" : String).length = 2 := rfl
  omega

theorem append_id_ne_self (s : String) : s ++ "_id" ≠ s := by
  intro h
  have hlen := congrArg String.length h
  rw [String.length_append] at hlen
  have h3 : ("_id" : String).length = 3 := rfl
  omega

/-- A key written or deleted by no step of the field list keeps its
binding through the field loop. -/
theorem runFieldLoop_preserves (mn : String) (s : Session)
    (fields : List StatikModelField) (fv fv' : List (String × FieldVal))
    (k : String)
    (h : runFieldLoop mn s fields fv = .ok fv')
    (hunt : ∀ g ∈ fields, g.name ≠ k ∧ g.name ++ "_id" ≠ k) :
    dictGet fv' k = dictGet fv k := by
  induction fields generalizing fv with
  | nil =>
      simp only [runFieldLoop] at h
      cases h
      rfl
  | cons g rest ih =>
      rw [runFieldLoop_cons] at h
      have hg := hunt g (List.mem_cons_self g rest)
      have hrest : ∀ g' ∈ rest, g'.name ≠ k ∧ g'.name ++ "_id" ≠ k :=
        fun g' hg' => hunt g' (List.mem_cons_of_mem g hg')
      revert h
      unfold runFieldStep
      by_cases hfk : g.cls = .foreignKeyF
      · rw [if_pos hfk]
        cases hv : dictGet fv g.name with
        | some v =>
            intro h
            rw [ih _ h hrest, dictGet_dictDel_other _ _ _ (fun hc => hg.1 hc.symm),
              dictGet_dictSet_other _ _ _ _ (fun hc => hg.2 hc.symm)]
        | none => intro h; exact ih _ h hrest
      · rw [if_neg hfk]
        by_cases hm2m : g.cls = .manyToManyF
        · rw [if_pos hm2m]
          cases hv : dictGet fv g.name with
          | none => intro h; cases h
          | some v =>
              by_cases hl : v.isPyList
              · simp only [hl, if_true]
                intro h
                rw [ih _ h hrest,
                  dictGet_dictSet_other _ _ _ _ (fun hc => hg.1 hc.symm)]
              · simp only [hl, Bool.false_eq_true, if_false]
                intro h; cases h
        · rw [if_neg hm2m]
          intro h; exact ih _ h hrest

/-! ## C1 — the query interface executes externally supplied code -/

/-- C1 (counterexample): the claim says a mutation-implying expression
is rejected before evaluation; in the source, `query` hands the text
straight to `exec` with the live session in scope, so the bulk-delete
payload is evaluated and empties the `Post` row set. -/
theorem query_rejects_mutation_cx :
    impliesMutation (.deleteAllRows "Post") = true ∧
    StatikDatabase.query (.deleteAllRows "Post")
        [("Post", [.scalar (.s "a")])]
      = ([("Post", [])], .countR 1) ∧
    ([("Post", [])] : Session) ≠ [("Post", [.scalar (.s "a")])] := by
  refine ⟨rfl, rfl, ?_⟩
  decide

/-- C1 (amended): `StatikDatabase.query` evaluates every payload
unconditionally — there is no validation step and no rejection branch —
so mutation-implying expressions run against the live session and
mutate the store: `session.add` appends a row and a bulk delete empties
the model's row set. -/
theorem query_evaluates_any_payload (m : String) (pk : PyVal) (s : Session) :
    (∀ q : QueryCode, StatikDatabase.query q s = execPyCode q s) ∧
    impliesMutation (.addRow m pk) = true ∧
    StatikDatabase.query (.addRow m pk) s = (sessionAdd s m pk, .noneR) ∧
    impliesMutation (.deleteAllRows m) = true ∧
    StatikDatabase.query (.deleteAllRows m) s
      = (dictSet s m [], .countR ((dictGet s m).getD []).length) :=
  ⟨fun _ => rfl, rfl, rfl, rfl, rfl⟩

/-! ## C5 — one shared association table per unordered model pair -/

/-- C5: repeated calls to `get_or_create_association_table` for the
same pair of models, in either argument order, return the one table
created (or found) by the first call, leave the registry unchanged, and
the table is memoized under the canonical name, which is symmetric in
the pair. -/
theorem association_table_shared (g : AssocRegistry) (A B : String) :
    get_or_create_association_table
        (get_or_create_association_table g A B).1 B A
      = get_or_create_association_table g A B ∧
    get_or_create_association_table
        (get_or_create_association_table g A B).1 A B
      = get_or_create_association_table g A B ∧
    dictGet (get_or_create_association_table g A B).1
        (calculate_association_table_name A B)
      = some (get_or_create_association_table g A B).2 ∧
    calculate_association_table_name B A
      = calculate_association_table_name A B := by
  cases h : dictGet g (calculate_association_table_name A B) with
  | some t =>
      have h1 : get_or_create_association_table g A B = (g, t) := by
        simp only [get_or_create_association_table, h]
      refine ⟨?_, ?_, ?_, calculate_association_table_name_comm A B⟩
      · rw [h1]
        simp only [get_or_create_association_table,
          calculate_association_table_name_comm A B, h]
      · rw [h1]
        simp only [get_or_create_association_table, h]
      · rw [h1]
        exact h
  | none =>
      have h1 : get_or_create_association_table g A B
          = (dictSet g (calculate_association_table_name A B)
               { name := calculate_association_table_name A B,
                 columns :=
                   [⟨strLower A ++ "_pk", some A⟩,
                    ⟨strLower B ++ "_pk", some B⟩] },
             { name := calculate_association_table_name A B,
               columns :=
                 [⟨strLower A ++ "_pk", some A⟩,
                  ⟨strLower B ++ "_pk", some B⟩] }) := by
        simp only [get_or_create_association_table, h]
      have hmem : dictGet (get_or_create_association_table g A B).1
          (calculate_association_table_name A B)
            = some (get_or_create_association_table g A B).2 := by
        rw [h1]
        exact dictGet_dictSet_self ..
      refine ⟨?_, ?_, hmem, calculate_association_table_name_comm A B⟩
      · rw [h1]
        simp only [get_or_create_association_table,
          calculate_association_table_name_comm A B, dictGet_dictSet_self]
      · rw [h1]
        simp only [get_or_create_association_table, dictGet_dictSet_self]

/-! ## C3 — which base types a trailing `[]` turns into many-to-many -/

/-- C3 (counterexample): the claim says a trailing `[]` yields a
many-to-many field for *any* base type admitted by the grammar,
primitives included; but `construct_field` tests the primitive table
before it ever looks at the `[]` suffix, so `String[]` constructs a
plain `StatikStringField`, not a `StatikManyToManyField`. -/
theorem construct_field_primitive_brackets_cx :
    construct_field "tags" "String[]" ["Post"]
      = .ok ⟨"tags", .stringF, "String", none⟩ ∧
    FieldClass.stringF ≠ FieldClass.manyToManyF := by
  constructor
  · decide
  · decide

/-- C3 (amended): a trailing `[]` produces a many-to-many relation
field exactly when the base type is a *declared model name* (not a
primitive): for any base type that is not in the primitive table and is
among the declared models, `construct_field` on `<base>[]` returns a
`StatikManyToManyField` targeting the base model.  The string-shape
hypotheses pin down the Python string operations on the type
expression. -/
theorem construct_field_model_brackets_m2m
    (name base : String) (all_models : List String)
    (h1 : strSplit "->" (base ++ "[]") = [base ++ "[]"])
    (h2 : strStrip (base ++ "[]") = base ++ "[]")
    (h3 : strSplit "[]" (base ++ "[]") = [base, ""])
    (h4 : strStrip base = base)
    (h5 : dictGet FIELD_TYPES base = none)
    (h6 : all_models.contains base = true)
    (h7 : strEndsWith "[]" (base ++ "[]") = true) :
    construct_field name (base ++ "[]") all_models
      = .ok ⟨name, .manyToManyF, base, none⟩ := by
  have h5' : ¬ (FIELD_TYPES.any (fun kv => kv.1 = base) = true) :=
    (dictGet_eq_none_iff_not_any FIELD_TYPES base).mp h5
  simp only [construct_field, h1, List.headD_cons, h2, h3, h4, h5, h6, h7,
    List.length_cons, List.length_nil]
  rw [if_neg (by
    intro hc
    exact hc.2 (by simp only [h6]))]
  simp

/-- Witness for `construct_field_model_brackets_m2m` at the concrete
field expression `Widget[]` with `Widget` a declared model. -/
theorem construct_field_model_brackets_m2m_witness :
    strSplit "->" ("Widget" ++ "[]") = ["Widget" ++ "[]"] ∧
    strStrip ("Widget" ++ "[]") = "Widget" ++ "[]" ∧
    strSplit "[]" ("Widget" ++ "[]") = ["Widget", ""] ∧
    strStrip "Widget" = "Widget" ∧
    dictGet FIELD_TYPES "Widget" = none ∧
    (["Widget"].contains "Widget") = true ∧
    strEndsWith "[]" ("Widget" ++ "[]") = true ∧
    construct_field "widgets" ("Widget" ++ "[]") ["Widget"]
      = .ok ⟨"widgets", .manyToManyF, "Widget", none⟩ :=
  ⟨by decide, by decide, by decide, by decide, by decide, by decide, by decide,
   construct_field_model_brackets_m2m "widgets" "Widget" ["Widget"]
     (by decide) (by decide) (by decide) (by decide) (by decide) (by decide)
     (by decide)⟩

/-! ## C4 — a non-list many-to-many value is a fatal field-type error -/

/-- C4: when the field loop reaches a `ManyToMany` field whose value in
the record is present but not a list, record resolution fails with an
`InvalidFieldTypeError` whose message names the model and the field. -/
theorem resolveInstance_m2m_not_list
    (model : StatikModel) (session : Session) (pkVal : PyVal)
    (vars : List (String × PyVal)) (content : PyVal)
    (pre post : List StatikModelField) (f : StatikModelField)
    (fv1 : List (String × FieldVal)) (v : FieldVal)
    (hfields : model.fields = pre ++ f :: post)
    (hcls : f.cls = .manyToManyF)
    (hpre : runFieldLoop model.name session pre
        (initialFieldValues pkVal vars) = .ok fv1)
    (hv : dictGet fv1 f.name = some v)
    (hnl : v.isPyList = false) :
    resolveInstance model session pkVal vars content
      = .error (.invalidFieldType
          ("ManyToMany field values are expected to be lists (see "
            ++ model.name ++ "." ++ f.name ++ ")")) ∧
    mentions ("ManyToMany field values are expected to be lists (see "
        ++ model.name ++ "." ++ f.name ++ ")") model.name ∧
    mentions ("ManyToMany field values are expected to be lists (see "
        ++ model.name ++ "." ++ f.name ++ ")") f.name := by
  refine ⟨?_, ?_, ?_⟩
  · have hstep : runFieldStep model.name session f fv1
        = .error (.invalidFieldType
            ("ManyToMany field values are expected to be lists (see "
              ++ model.name ++ "." ++ f.name ++ ")")) := by
      unfold runFieldStep
      rw [hcls]
      simp only [reduceCtorEq, if_false, if_true, hv, hnl, Bool.false_eq_true]
    simp only [resolveInstance, hfields, runFieldLoop_append, hpre,
      runFieldLoop_cons, hstep]
  · exact @mentions_of_eq _
      "ManyToMany field values are expected to be lists (see "
      model.name ("." ++ f.name ++ ")")
      (by simp only [str_append_assoc])
  · exact @mentions_of_eq _
      ("ManyToMany field values are expected to be lists (see "
        ++ model.name ++ ".") f.name ")"
      (by simp only [str_append_assoc])

/-- Witness for `resolveInstance_m2m_not_list`: model `Post` declares
many-to-many field `tags`; the record supplies the non-list value
`"x"`. -/
theorem resolveInstance_m2m_not_list_witness :
    (StatikModel.fields ⟨"Post", [⟨"tags", .manyToManyF, "Tag", none⟩], none, []⟩
        = [] ++ ⟨"tags", .manyToManyF, "Tag", none⟩ :: []) ∧
    runFieldLoop "Post" [] []
        (initialFieldValues (.scalar (.s "p1")) [("tags", .scalar (.s "x"))])
      = .ok [("tags", .val (.scalar (.s "x"))),
             ("pk", .val (.scalar (.s "p1")))] ∧
    resolveInstance ⟨"Post", [⟨"tags", .manyToManyF, "Tag", none⟩], none, []⟩
        [] (.scalar (.s "p1")) [("tags", .scalar (.s "x"))] (.scalar .pyNone)
      = .error (.invalidFieldType
          ("ManyToMany field values are expected to be lists (see "
            ++ "Post" ++ "." ++ "tags" ++ ")")) :=
  ⟨by decide, by decide,
   (resolveInstance_m2m_not_list
     ⟨"Post", [⟨"tags", .manyToManyF, "Tag", none⟩], none, []⟩
     [] (.scalar (.s "p1")) [("tags", .scalar (.s "x"))] (.scalar .pyNone)
     [] [] ⟨"tags", .manyToManyF, "Tag", none⟩
     [("tags", .val (.scalar (.s "x"))), ("pk", .val (.scalar (.s "p1")))]
     (.val (.scalar (.s "x")))
     (by decide) (by decide) (by decide) (by decide) (by decide)).1⟩

/-! ## C9 — an omitted many-to-many field is a raw `KeyError` -/

/-- C9: when the field loop reaches a `ManyToMany` field that the
record's attribute map omits entirely, resolution fails with Python's
raw `KeyError` on the field name — not with any of the documented
statik error classes, and without model identification. -/
theorem resolveInstance_m2m_missing_keyError
    (model : StatikModel) (session : Session) (pkVal : PyVal)
    (vars : List (String × PyVal)) (content : PyVal)
    (pre post : List StatikModelField) (f : StatikModelField)
    (fv1 : List (String × FieldVal))
    (hfields : model.fields = pre ++ f :: post)
    (hcls : f.cls = .manyToManyF)
    (hpre : runFieldLoop model.name session pre
        (initialFieldValues pkVal vars) = .ok fv1)
    (hv : dictGet fv1 f.name = none) :
    resolveInstance model session pkVal vars content
      = .error (.keyError f.name) ∧
    (StatikError.keyError f.name).isDocumented = false := by
  refine ⟨?_, rfl⟩
  have hstep : runFieldStep model.name session f fv1
      = .error (.keyError f.name) := by
    unfold runFieldStep
    rw [hcls]
    simp only [reduceCtorEq, if_false, if_true, hv]
  simp only [resolveInstance, hfields, runFieldLoop_append, hpre,
    runFieldLoop_cons, hstep]

/-- Witness for `resolveInstance_m2m_missing_keyError`: model `Post`
declares many-to-many field `tags`; the record omits it. -/
theorem resolveInstance_m2m_missing_keyError_witness :
    (StatikModel.fields ⟨"Post", [⟨"tags", .manyToManyF, "Tag", none⟩], none, []⟩
        = [] ++ ⟨"tags", .manyToManyF, "Tag", none⟩ :: []) ∧
    runFieldLoop "Post" [] []
        (initialFieldValues (.scalar (.s "p1")) [("title", .scalar (.s "T"))])
      = .ok [("title", .val (.scalar (.s "T"))),
             ("pk", .val (.scalar (.s "p1")))] ∧
    resolveInstance ⟨"Post", [⟨"tags", .manyToManyF, "Tag", none⟩], none, []⟩
        [] (.scalar (.s "p1")) [("title", .scalar (.s "T"))] (.scalar .pyNone)
      = .error (.keyError "tags") :=
  ⟨by decide, by decide,
   (resolveInstance_m2m_missing_keyError
     ⟨"Post", [⟨"tags", .manyToManyF, "Tag", none⟩], none, []⟩
     [] (.scalar (.s "p1")) [("title", .scalar (.s "T"))] (.scalar .pyNone)
     [] [] ⟨"tags", .manyToManyF, "Tag", none⟩
     [("title", .val (.scalar (.s "T"))), ("pk", .val (.scalar (.s "p1")))]
     (by decide) (by decide) (by decide) (by decide)).1⟩

/-! ## C10 — an omitted foreign-key field is tolerated -/

/-- C10: a `ForeignKey` field absent from the record's attribute map is
simply skipped: the loop step succeeds leaving the map unchanged, the
record resolves, and the resolved map carries neither the field name
nor any `<field>_id` binding — the row is inserted with a null foreign
key. -/
theorem resolveInstance_fk_omitted
    (model : StatikModel) (session : Session) (pkVal : PyVal)
    (vars : List (String × PyVal)) (content : PyVal)
    (pre post : List StatikModelField) (f : StatikModelField)
    (fv1 fv2 : List (String × FieldVal))
    (hfields : model.fields = pre ++ f :: post)
    (hcls : f.cls = .foreignKeyF)
    (hpre : runFieldLoop model.name session pre
        (initialFieldValues pkVal vars) = .ok fv1)
    (hv : dictGet fv1 f.name = none)
    (hid : dictGet fv1 (f.name ++ "_id") = none)
    (hpost : runFieldLoop model.name session post fv1 = .ok fv2)
    (huntName : ∀ g ∈ post, g.name ≠ f.name ∧ g.name ++ "_id" ≠ f.name)
    (huntId : ∀ g ∈ post,
      g.name ≠ f.name ++ "_id" ∧ g.name ++ "_id" ≠ f.name ++ "_id")
    (hcf : model.content_field = none) :
    runFieldStep model.name session f fv1 = .ok fv1 ∧
    resolveInstance model session pkVal vars content = .ok fv2 ∧
    dictGet fv2 (f.name ++ "_id") = none ∧
    dictGet fv2 f.name = none := by
  have hstep : runFieldStep model.name session f fv1 = .ok fv1 := by
    unfold runFieldStep
    rw [hcls]
    simp only [if_true, hv]
  refine ⟨hstep, ?_, ?_, ?_⟩
  · simp only [resolveInstance, hfields, runFieldLoop_append, hpre,
      runFieldLoop_cons, hstep, hpost, hcf]
  · rw [runFieldLoop_preserves _ _ _ _ _ _ hpost huntId]
    exact hid
  · rw [runFieldLoop_preserves _ _ _ _ _ _ hpost huntName]
    exact hv

/-- Witness for `resolveInstance_fk_omitted`: model `Post` declares
foreign-key field `author`; the record omits it and resolves with no
`author_id` binding. -/
theorem resolveInstance_fk_omitted_witness :
    (StatikModel.fields
        ⟨"Post", [⟨"author", .foreignKeyF, "Person", none⟩], none, []⟩
      = [] ++ ⟨"author", .foreignKeyF, "Person", none⟩ :: []) ∧
    dictGet [("pk", FieldVal.val (.scalar (.s "p1")))] "author" = none ∧
    resolveInstance
        ⟨"Post", [⟨"author", .foreignKeyF, "Person", none⟩], none, []⟩
        [] (.scalar (.s "p1")) [] (.scalar .pyNone)
      = .ok [("pk", .val (.scalar (.s "p1")))] ∧
    dictGet [("pk", FieldVal.val (.scalar (.s "p1")))] ("author" ++ "_id")
      = none :=
  ⟨by decide, by decide,
   (resolveInstance_fk_omitted
     ⟨"Post", [⟨"author", .foreignKeyF, "Person", none⟩], none, []⟩
     [] (.scalar (.s "p1")) [] (.scalar .pyNone)
     [] [] ⟨"author", .foreignKeyF, "Person", none⟩
     [("pk", .val (.scalar (.s "p1")))] [("pk", .val (.scalar (.s "p1")))]
     (by decide) (by decide) (by decide) (by decide) (by decide) (by decide)
     (by intro g hg; cases hg) (by intro g hg; cases hg) (by decide)).2.1,
   (resolveInstance_fk_omitted
     ⟨"Post", [⟨"author", .foreignKeyF, "Person", none⟩], none, []⟩
     [] (.scalar (.s "p1")) [] (.scalar .pyNone)
     [] [] ⟨"author", .foreignKeyF, "Person", none⟩
     [("pk", .val (.scalar (.s "p1")))] [("pk", .val (.scalar (.s "p1")))]
     (by decide) (by decide) (by decide) (by decide) (by decide) (by decide)
     (by intro g hg; cases hg) (by intro g hg; cases hg) (by decide)).2.2.1⟩

/-! ## C8 — a present foreign-key value moves unchanged to `<field>_id` -/

/-- C8: a `ForeignKey` field present in the record's attribute map is
renamed to the `<field>_id` column with its value unchanged and the
original key removed, for *every* session alike — the step never
consults the loaded rows, so no target-existence check happens at
resolution time; and the schema compiler allocates the matching
`<field>_id` foreign-key column referencing the target model. -/
theorem resolveInstance_fk_present
    (model : StatikModel) (session : Session) (pkVal : PyVal)
    (vars : List (String × PyVal)) (content : PyVal)
    (all_models : List String)
    (pre post : List StatikModelField) (f : StatikModelField)
    (fv1 fv2 : List (String × FieldVal)) (v : FieldVal)
    (hfields : model.fields = pre ++ f :: post)
    (hcls : f.cls = .foreignKeyF)
    (hpre : runFieldLoop model.name session pre
        (initialFieldValues pkVal vars) = .ok fv1)
    (hv : dictGet fv1 f.name = some v)
    (hpost : runFieldLoop model.name session post
        (dictDel (dictSet fv1 (f.name ++ "_id") v) f.name) = .ok fv2)
    (huntName : ∀ g ∈ post, g.name ≠ f.name ∧ g.name ++ "_id" ≠ f.name)
    (huntId : ∀ g ∈ post,
      g.name ≠ f.name ++ "_id" ∧ g.name ++ "_id" ≠ f.name ++ "_id")
    (hcf : model.content_field = none)
    (hmap : SQLALCHEMY_FIELD_MAPPER_KEYS.contains f.field_type = false)
    (hmod : all_models.contains f.field_type = true) :
    (∀ s' : Session, runFieldStep model.name s' f fv1
      = .ok (dictDel (dictSet fv1 (f.name ++ "_id") v) f.name)) ∧
    dictGet (dictDel (dictSet fv1 (f.name ++ "_id") v) f.name)
        (f.name ++ "_id") = some v ∧
    dictGet (dictDel (dictSet fv1 (f.name ++ "_id") v) f.name) f.name
      = none ∧
    resolveInstance model session pkVal vars content = .ok fv2 ∧
    dictGet fv2 (f.name ++ "_id") = some v ∧
    dictGet fv2 f.name = none ∧
    (∀ cols g, factoryFieldStep model.name all_models (cols, g) f
      = .ok (cols ++ [⟨f.name ++ "_id", some f.field_type⟩], g)) := by
  have hstep : ∀ s' : Session, runFieldStep model.name s' f fv1
      = .ok (dictDel (dictSet fv1 (f.name ++ "_id") v) f.name) := by
    intro s'
    unfold runFieldStep
    rw [hcls]
    simp only [if_true, hv]
  have hgetid : dictGet (dictDel (dictSet fv1 (f.name ++ "_id") v) f.name)
      (f.name ++ "_id") = some v := by
    rw [dictGet_dictDel_other _ _ _ (append_id_ne_self f.name),
      dictGet_dictSet_self]
  have hgetname : dictGet (dictDel (dictSet fv1 (f.name ++ "_id") v) f.name)
      f.name = none := dictGet_dictDel_self ..
  refine ⟨hstep, hgetid, hgetname, ?_, ?_, ?_, ?_⟩
  · simp only [resolveInstance, hfields, runFieldLoop_append, hpre,
      runFieldLoop_cons, hstep session, hpost, hcf]
  · rw [runFieldLoop_preserves _ _ _ _ _ _ hpost huntId]
    exact hgetid
  · rw [runFieldLoop_preserves _ _ _ _ _ _ hpost huntName]
    exact hgetname
  · intro cols g
    unfold factoryFieldStep
    simp only [hmap, Bool.false_eq_true, if_false, hmod, if_true, hcls]

/-- Witness for `resolveInstance_fk_present`: model `Post` declares
foreign-key field `author` targeting `Person`; the record value
`"alice"` moves unchanged to `author_id` and no `Person` row exists in
the (empty) session. -/
theorem resolveInstance_fk_present_witness :
    dictGet [("author", FieldVal.val (.scalar (.s "alice"))),
             ("pk", FieldVal.val (.scalar (.s "p1")))] "author"
      = some (.val (.scalar (.s "alice"))) ∧
    resolveInstance
        ⟨"Post", [⟨"author", .foreignKeyF, "Person", none⟩], none, []⟩
        [] (.scalar (.s "p1")) [("author", .scalar (.s "alice"))]
        (.scalar .pyNone)
      = .ok [("pk", .val (.scalar (.s "p1"))),
             ("author" ++ "_id", .val (.scalar (.s "alice")))] ∧
    (∀ cols g, factoryFieldStep "Post" ["Post", "Person"] (cols, g)
        ⟨"author", .foreignKeyF, "Person", none⟩
      = .ok (cols ++ [⟨"author" ++ "_id", some "Person"⟩], g)) := by
  have h := resolveInstance_fk_present
    ⟨"Post", [⟨"author", .foreignKeyF, "Person", none⟩], none, []⟩
    [] (.scalar (.s "p1")) [("author", .scalar (.s "alice"))] (.scalar .pyNone)
    ["Post", "Person"]
    [] [] ⟨"author", .foreignKeyF, "Person", none⟩
    [("author", .val (.scalar (.s "alice"))), ("pk", .val (.scalar (.s "p1")))]
    [("pk", .val (.scalar (.s "p1"))),
     ("author" ++ "_id", .val (.scalar (.s "alice")))]
    (.val (.scalar (.s "alice")))
    (by decide) (by decide) (by decide) (by decide) (by decide)
    (by intro g hg; cases hg) (by intro g hg; cases hg)
    (by decide) (by decide) (by decide)
  exact ⟨by decide, h.2.2.2.1, h.2.2.2.2.2.2⟩

/-! ## C7 — many-to-many keys keep matches, silently drop the rest -/

/-- C7: a list-valued `ManyToMany` field resolves, without error, to
exactly the already-loaded rows of the target model whose primary key
occurs in the list: every listed key with a matching loaded row
contributes that row to the relation, and every listed key with no
matching loaded row is silently dropped. -/
theorem resolveInstance_m2m_fetch
    (modelName : String) (session : Session)
    (f : StatikModelField)
    (fv1 : List (String × FieldVal)) (pks : List PyScalar)
    (hcls : f.cls = .manyToManyF)
    (hv : dictGet fv1 f.name = some (.val (.list pks))) :
    runFieldStep modelName session f fv1
      = .ok (dictSet fv1 f.name (.rows
          (((dictGet session f.field_type).getD []).filter
            (fun pk => (pks.map PyVal.scalar).contains pk)))) ∧
    (∀ r : PyVal,
      r ∈ ((dictGet session f.field_type).getD []).filter
            (fun pk => (pks.map PyVal.scalar).contains pk)
        ↔ r ∈ (dictGet session f.field_type).getD []
            ∧ r ∈ pks.map PyVal.scalar) ∧
    (∀ p : PyScalar, p ∈ pks →
      (PyVal.scalar p ∈ (dictGet session f.field_type).getD [] →
        PyVal.scalar p
          ∈ ((dictGet session f.field_type).getD []).filter
              (fun pk => (pks.map PyVal.scalar).contains pk)) ∧
      (PyVal.scalar p ∉ (dictGet session f.field_type).getD [] →
        PyVal.scalar p
          ∉ ((dictGet session f.field_type).getD []).filter
              (fun pk => (pks.map PyVal.scalar).contains pk))) := by
  have hmem : ∀ r : PyVal,
      r ∈ ((dictGet session f.field_type).getD []).filter
            (fun pk => (pks.map PyVal.scalar).contains pk)
        ↔ r ∈ (dictGet session f.field_type).getD []
            ∧ r ∈ pks.map PyVal.scalar := by
    intro r
    simp [List.mem_filter]
  refine ⟨?_, hmem, ?_⟩
  · unfold runFieldStep
    rw [hcls]
    simp only [reduceCtorEq, if_false, if_true, hv, FieldVal.isPyList,
      if_true, FieldVal.inValues]
  · intro p hp
    constructor
    · intro hin
      exact (hmem _).mpr ⟨hin, List.mem_map_of_mem _ hp⟩
    · intro hout hc
      exact hout ((hmem _).mp hc).1

/-- Witness for `resolveInstance_m2m_fetch`: the record lists tag keys
`"a"` (loaded) and `"x"` (not loaded); `"a"`'s row is kept and `"x"`
is dropped without error. -/
theorem resolveInstance_m2m_fetch_witness :
    dictGet [("tags", FieldVal.val (.list [.s "a", .s "x"])),
             ("pk", FieldVal.val (.scalar (.s "p1")))] "tags"
      = some (.val (.list [.s "a", .s "x"])) ∧
    runFieldStep "Post" [("Tag", [.scalar (.s "a"), .scalar (.s "b")])]
        ⟨"tags", .manyToManyF, "Tag", none⟩
        [("tags", .val (.list [.s "a", .s "x"])),
         ("pk", .val (.scalar (.s "p1")))]
      = .ok [("tags", .rows [.scalar (.s "a")]),
             ("pk", .val (.scalar (.s "p1")))] ∧
    PyVal.scalar (.s "a") ∈ [PyVal.scalar (.s "a")] ∧
    PyVal.scalar (.s "x") ∉ [PyVal.scalar (.s "a")] := by
  have h := resolveInstance_m2m_fetch
    "Post" [("Tag", [.scalar (.s "a"), .scalar (.s "b")])]
    ⟨"tags", .manyToManyF, "Tag", none⟩
    [("tags", .val (.list [.s "a", .s "x"])),
     ("pk", .val (.scalar (.s "p1")))]
    [.s "a", .s "x"]
    (by decide) (by decide)
  refine ⟨by decide, ?_, by decide, by decide⟩
  have h1 := h.1
  simpa using h1

/-! ## C2 — duplicate primary keys, detection order, load order -/

/-- The primary key a collection item will be stored under, when the
item is a map carrying one. -/
def collItemPk : CollItem → Option PyVal
  | .mapItem entries => dictGet entries "pk"
  | .other => none

/-- The first element of the list that repeats an element seen earlier
(the accumulator holds the keys already seen). -/
def firstDupGo (seen : List PyVal) : List PyVal → Option PyVal
  | [] => none
  | p :: rest => if p ∈ seen then some p else firstDupGo (p :: seen) rest

/-- The first element of the list that repeats an earlier element, in
left-to-right order; `none` when all elements are distinct. -/
def firstDup (l : List PyVal) : Option PyVal := firstDupGo [] l

theorem firstDupGo_eq_none {seen l} (h : firstDupGo seen l = none) :
    l.Nodup ∧ ∀ p ∈ l, p ∉ seen := by
  induction l generalizing seen with
  | nil => exact ⟨List.nodup_nil, by intro p hp; cases hp⟩
  | cons p rest ih =>
      unfold firstDupGo at h
      by_cases hp : p ∈ seen
      · rw [if_pos hp] at h; cases h
      · rw [if_neg hp] at h
        obtain ⟨hnd, hdisj⟩ := ih h
        refine ⟨List.nodup_cons.mpr ⟨?_, hnd⟩, ?_⟩
        · intro hc
          exact (hdisj p hc) (List.mem_cons_self p seen)
        · intro q hq
          rcases List.mem_cons.mp hq with rfl | hq'
          · exact hp
          · intro hc
            exact (hdisj q hq') (List.mem_cons_of_mem p hc)

theorem dictGet_sessionAdd_self (s : Session) (m : String) (pk : PyVal) :
    dictGet (sessionAdd s m pk) m
      = some ((dictGet s m).getD [] ++ [pk]) := by
  unfold sessionAdd
  exact dictGet_dictSet_self ..

theorem val_mem_map_iff (p : PyVal) (l : List PyVal) :
    FieldVal.val p ∈ l.map FieldVal.val ↔ p ∈ l := by
  constructor
  · intro h
    obtain ⟨q, hq, hqe⟩ := List.mem_map.mp h
    cases hqe
    exact hq
  · exact fun h => List.mem_map_of_mem _ h

/-- A model with no many-to-many field always resolves its field loop
successfully. -/
theorem runFieldLoop_no_m2m (mn : String) (s : Session)
    (fields : List StatikModelField) (fv : List (String × FieldVal))
    (h : ∀ g ∈ fields, g.cls ≠ .manyToManyF) :
    ∃ fv', runFieldLoop mn s fields fv = .ok fv' := by
  induction fields generalizing fv with
  | nil => exact ⟨fv, rfl⟩
  | cons g rest ih =>
      have hg := h g (List.mem_cons_self g rest)
      have hrest : ∀ g' ∈ rest, g'.cls ≠ .manyToManyF :=
        fun g' hg' => h g' (List.mem_cons_of_mem g hg')
      rw [runFieldLoop_cons]
      unfold runFieldStep
      by_cases hfk : g.cls = .foreignKeyF
      · rw [if_pos hfk]
        cases dictGet fv g.name with
        | some v => exact ih _ hrest
        | none => exact ih _ hrest
      · rw [if_neg hfk, if_neg hg]
        exact ih _ hrest

/-- A record of a model with no many-to-many field, no field named
`pk`, and no content field resolves successfully, and the resolved map
still binds `pk` to the instance's primary key. -/
theorem resolveInstance_simple (model : StatikModel) (session : Session)
    (pkVal : PyVal) (vars : List (String × PyVal)) (content : PyVal)
    (hm2m : ∀ g ∈ model.fields, g.cls ≠ .manyToManyF)
    (hpk : ∀ g ∈ model.fields, g.name ≠ "pk")
    (hcf : model.content_field = none) :
    ∃ fv, resolveInstance model session pkVal vars content = .ok fv ∧
      dictGet fv "pk" = some (.val pkVal) := by
  obtain ⟨fv', hloop⟩ := runFieldLoop_no_m2m model.name session model.fields
    (initialFieldValues pkVal vars) hm2m
  refine ⟨fv', ?_, ?_⟩
  · simp only [resolveInstance, hloop, hcf]
  · rw [runFieldLoop_preserves _ _ _ _ _ _ hloop ?hunt]
    · exact dictGet_dictSet_self ..
    case hunt =>
      intro g hg
      exact ⟨hpk g hg, append_id_ne_pk g.name⟩


/-- Loop invariant of collection-mode loading for a model whose records
always resolve: with `seenPks` already seen, the loop succeeds iff no
later key repeats, appends the keys to the model's rows in enumeration
order, and otherwise reports the first repeated key. -/
theorem loadCollGo_spec (model : StatikModel)
    (hm2m : ∀ g ∈ model.fields, g.cls ≠ .manyToManyF)
    (hpk : ∀ g ∈ model.fields, g.name ≠ "pk")
    (hcf : model.content_field = none) :
    ∀ (items : List CollItem) (session : Session) (seenPks : List PyVal),
    (∀ item ∈ items, ∃ e, item = .mapItem e ∧ (dictGet e "pk").isSome) →
    (firstDupGo seenPks (items.filterMap collItemPk) = none →
      ∃ sess', loadCollGo model session items (seenPks.map FieldVal.val)
          = .ok sess' ∧
        (dictGet sess' model.name).getD []
          = (dictGet session model.name).getD []
              ++ items.filterMap collItemPk) ∧
    (∀ d, firstDupGo seenPks (items.filterMap collItemPk) = some d →
      loadCollGo model session items (seenPks.map FieldVal.val)
        = .error (.duplicateModelInstance
            ("More than one entry with the name \"" ++ d.pyStr
              ++ "\" exists for model " ++ model.name))) := by
  intro items
  induction items with
  | nil =>
      intro session seenPks _
      constructor
      · intro _
        exact ⟨session, rfl, by simp⟩
      · intro d hd
        cases hd
  | cons item rest ih =>
      intro session seenPks hWF
      obtain ⟨entries, hitem, hsome⟩ :=
        hWF item (List.mem_cons_self item rest)
      subst hitem
      cases hpkv : dictGet entries "pk" with
      | none => rw [hpkv] at hsome; cases hsome
      | some pkv =>
      obtain ⟨fv, hres, hfvpk⟩ := resolveInstance_simple model session pkv
        entries (.scalar .pyNone) hm2m hpk hcf
      have hunfold : loadCollGo model session
          (CollItem.mapItem entries :: rest) (seenPks.map FieldVal.val)
          = if FieldVal.val pkv ∈ seenPks.map FieldVal.val
            then .error (.duplicateModelInstance
              ("More than one entry with the name \""
                ++ (FieldVal.val pkv).pyStr ++ "\" exists for model "
                ++ model.name))
            else loadCollGo model
              (sessionAdd session model.name (FieldVal.val pkv).asRowPk)
              rest (FieldVal.val pkv :: seenPks.map FieldVal.val) := by
        simp only [loadCollGo, hpkv, hres, hfvpk]
      have hpks : (CollItem.mapItem entries :: rest).filterMap collItemPk
          = pkv :: rest.filterMap collItemPk := by
        simp [collItemPk, hpkv]
      have hWFrest : ∀ item ∈ rest, ∃ e, item = .mapItem e
          ∧ (dictGet e "pk").isSome :=
        fun i hi => hWF i (List.mem_cons_of_mem _ hi)
      by_cases hmem : pkv ∈ seenPks
      · have hmem' : FieldVal.val pkv ∈ seenPks.map FieldVal.val :=
          (val_mem_map_iff ..).mpr hmem
        rw [hpks]
        constructor
        · intro hnone
          unfold firstDupGo at hnone
          rw [if_pos hmem] at hnone
          cases hnone
        · intro d hd
          unfold firstDupGo at hd
          rw [if_pos hmem] at hd
          cases hd
          rw [hunfold, if_pos hmem']
          rfl
      · have hmem' : FieldVal.val pkv ∉ seenPks.map FieldVal.val :=
          fun hc => hmem ((val_mem_map_iff ..).mp hc)
        have hrec := ih (sessionAdd session model.name pkv) (pkv :: seenPks)
          hWFrest
        rw [hpks]
        constructor
        · intro hnone
          unfold firstDupGo at hnone
          rw [if_neg hmem] at hnone
          obtain ⟨sess', hok, hrows⟩ := hrec.1 hnone
          refine ⟨sess', ?_, ?_⟩
          · rw [hunfold, if_neg hmem']
            exact hok
          · rw [hrows, dictGet_sessionAdd_self]
            simp
        · intro d hd
          unfold firstDupGo at hd
          rw [if_neg hmem] at hd
          rw [hunfold, if_neg hmem']
          exact hrec.2 d hd

/-- Loop invariant of per-file loading for a model whose records always
resolve: same dedup behavior as collection mode, with each file's
derived name as the primary key. -/
theorem loadFilesGo_spec (model : StatikModel)
    (hm2m : ∀ g ∈ model.fields, g.cls ≠ .manyToManyF)
    (hpk : ∀ g ∈ model.fields, g.name ≠ "pk")
    (hcf : model.content_field = none) :
    ∀ (files : List FileEntry) (session : Session) (seenPks : List PyVal),
    (firstDupGo seenPks (files.map (fun e => PyVal.scalar (.s e.name)))
        = none →
      ∃ sess', loadFilesGo model session files (seenPks.map FieldVal.val)
          = .ok sess' ∧
        (dictGet sess' model.name).getD []
          = (dictGet session model.name).getD []
              ++ files.map (fun e => PyVal.scalar (.s e.name))) ∧
    (∀ d, firstDupGo seenPks (files.map (fun e => PyVal.scalar (.s e.name)))
        = some d →
      loadFilesGo model session files (seenPks.map FieldVal.val)
        = .error (.duplicateModelInstance
            ("More than one entry with the name \"" ++ d.pyStr
              ++ "\" exists for model " ++ model.name))) := by
  intro files
  induction files with
  | nil =>
      intro session seenPks
      constructor
      · intro _
        exact ⟨session, rfl, by simp⟩
      · intro d hd
        cases hd
  | cons e rest ih =>
      intro session seenPks
      obtain ⟨fv, hres, hfvpk⟩ := resolveInstance_simple model session
        (.scalar (.s e.name)) e.vars (.scalar (.s e.content)) hm2m hpk hcf
      have hunfold : loadFilesGo model session (e :: rest)
          (seenPks.map FieldVal.val)
          = if FieldVal.val (.scalar (.s e.name))
                ∈ seenPks.map FieldVal.val
            then .error (.duplicateModelInstance
              ("More than one entry with the name \""
                ++ (FieldVal.val (.scalar (.s e.name))).pyStr
                ++ "\" exists for model " ++ model.name))
            else loadFilesGo model
              (sessionAdd session model.name
                (FieldVal.val (.scalar (.s e.name))).asRowPk)
              rest (FieldVal.val (.scalar (.s e.name))
                      :: seenPks.map FieldVal.val) := by
        simp only [loadFilesGo, hres, hfvpk]
      by_cases hmem : PyVal.scalar (.s e.name) ∈ seenPks
      · have hmem' : FieldVal.val (.scalar (.s e.name))
            ∈ seenPks.map FieldVal.val := (val_mem_map_iff ..).mpr hmem
        constructor
        · intro hnone
          rw [List.map_cons] at hnone
          unfold firstDupGo at hnone
          rw [if_pos hmem] at hnone
          cases hnone
        · intro d hd
          rw [List.map_cons] at hd
          unfold firstDupGo at hd
          rw [if_pos hmem] at hd
          cases hd
          rw [hunfold, if_pos hmem']
          rfl
      · have hmem' : FieldVal.val (.scalar (.s e.name))
            ∉ seenPks.map FieldVal.val :=
          fun hc => hmem ((val_mem_map_iff ..).mp hc)
        have hrec := ih (sessionAdd session model.name
          (.scalar (.s e.name))) (PyVal.scalar (.s e.name) :: seenPks)
        constructor
        · intro hnone
          rw [List.map_cons] at hnone
          unfold firstDupGo at hnone
          rw [if_neg hmem] at hnone
          obtain ⟨sess', hok, hrows⟩ := hrec.1 hnone
          refine ⟨sess', ?_, ?_⟩
          · rw [hunfold, if_neg hmem']
            exact hok
          · rw [List.map_cons, hrows, dictGet_sessionAdd_self]
            simp
        · intro d hd
          rw [List.map_cons] at hd
          unfold firstDupGo at hd
          rw [if_neg hmem] at hd
          rw [hunfold, if_neg hmem']
          exact hrec.2 d hd

/-- C2: in both loading modes, records are processed in input
enumeration order; when no primary key repeats, loading succeeds and
appends the records' pairwise-distinct keys to the model's row set in
that order; when a key repeats, the load fails at the first collision
in enumeration order with a `DuplicateModelInstanceError` whose message
names the duplicate key and the model. -/
theorem load_duplicate_pk_detection
    (model : StatikModel) (session : Session)
    (items : List CollItem) (files : List FileEntry)
    (hm2m : ∀ g ∈ model.fields, g.cls ≠ .manyToManyF)
    (hpk : ∀ g ∈ model.fields, g.name ≠ "pk")
    (hcf : model.content_field = none)
    (hWF : ∀ item ∈ items, ∃ e, item = .mapItem e ∧ (dictGet e "pk").isSome) :
    ((firstDup (items.filterMap collItemPk) = none →
        ∃ sess', load_model_data_collection model session items = .ok sess' ∧
          (dictGet sess' model.name).getD []
            = (dictGet session model.name).getD []
                ++ items.filterMap collItemPk ∧
          (items.filterMap collItemPk).Nodup) ∧
      (∀ d, firstDup (items.filterMap collItemPk) = some d →
        load_model_data_collection model session items
          = .error (.duplicateModelInstance
              ("More than one entry with the name \"" ++ d.pyStr
                ++ "\" exists for model " ++ model.name)) ∧
        mentions ("More than one entry with the name \"" ++ d.pyStr
            ++ "\" exists for model " ++ model.name) d.pyStr ∧
        mentions ("More than one entry with the name \"" ++ d.pyStr
            ++ "\" exists for model " ++ model.name) model.name)) ∧
    ((firstDup (files.map (fun e => PyVal.scalar (.s e.name))) = none →
        ∃ sess', load_model_data_from_files model session files
            = .ok sess' ∧
          (dictGet sess' model.name).getD []
            = (dictGet session model.name).getD []
                ++ files.map (fun e => PyVal.scalar (.s e.name)) ∧
          (files.map (fun e => PyVal.scalar (.s e.name))).Nodup) ∧
      (∀ d, firstDup (files.map (fun e => PyVal.scalar (.s e.name)))
          = some d →
        load_model_data_from_files model session files
          = .error (.duplicateModelInstance
              ("More than one entry with the name \"" ++ d.pyStr
                ++ "\" exists for model " ++ model.name)))) := by
  have hcoll := loadCollGo_spec model hm2m hpk hcf items session [] hWF
  have hfiles := loadFilesGo_spec model hm2m hpk hcf files session []
  refine ⟨⟨?_, ?_⟩, ⟨?_, ?_⟩⟩
  · intro hnone
    obtain ⟨sess', hok, hrows⟩ := hcoll.1 hnone
    exact ⟨sess', hok, hrows, (firstDupGo_eq_none hnone).1⟩
  · intro d hd
    refine ⟨hcoll.2 d hd, ?_, ?_⟩
    · exact @mentions_of_eq _ "More than one entry with the name \""
        d.pyStr ("\" exists for model " ++ model.name)
        (by simp only [str_append_assoc])
    · exact @mentions_of_eq _
        ("More than one entry with the name \"" ++ d.pyStr
          ++ "\" exists for model ") model.name ""
        (by rw [String.append_empty])
  · intro hnone
    obtain ⟨sess', hok, hrows⟩ := hfiles.1 hnone
    exact ⟨sess', hok, hrows, (firstDupGo_eq_none hnone).1⟩
  · intro d hd
    exact hfiles.2 d hd

/-- Witness for `load_duplicate_pk_detection`: model `Post` (no
declared fields); the collection repeats key `"a"` and fails naming it;
the two files `f1`, `f2` load in order. -/
theorem load_duplicate_pk_detection_witness :
    load_model_data_collection ⟨"Post", [], none, []⟩ []
        [.mapItem [("pk", .scalar (.s "a"))],
         .mapItem [("pk", .scalar (.s "b"))],
         .mapItem [("pk", .scalar (.s "a"))]]
      = .error (.duplicateModelInstance
          ("More than one entry with the name \""
            ++ PyVal.pyStr (.scalar (.s "a"))
            ++ "\" exists for model " ++ "Post")) ∧
    ∃ sess', load_model_data_from_files ⟨"Post", [], none, []⟩ []
        [⟨"f1", [], ""⟩, ⟨"f2", [], ""⟩] = .ok sess' ∧
      (dictGet sess' "Post").getD []
        = (dictGet ([] : Session) "Post").getD []
            ++ [PyVal.scalar (.s "f1"), PyVal.scalar (.s "f2")] := by
  have h := load_duplicate_pk_detection ⟨"Post", [], none, []⟩ []
    [.mapItem [("pk", .scalar (.s "a"))],
     .mapItem [("pk", .scalar (.s "b"))],
     .mapItem [("pk", .scalar (.s "a"))]]
    [⟨"f1", [], ""⟩, ⟨"f2", [], ""⟩]
    (by intro g hg; cases hg) (by intro g hg; cases hg) (by decide)
    (by
      intro item hitem
      simp only [List.mem_cons, List.not_mem_nil, or_false] at hitem
      rcases hitem with rfl | rfl | rfl
      · exact ⟨[("pk", .scalar (.s "a"))], rfl, by decide⟩
      · exact ⟨[("pk", .scalar (.s "b"))], rfl, by decide⟩
      · exact ⟨[("pk", .scalar (.s "a"))], rfl, by decide⟩)
  constructor
  · exact (h.1.2 (.scalar (.s "a")) (by decide)).1
  · obtain ⟨sess', hok, hrows, _⟩ := h.2.1 (by decide)
    exact ⟨sess', hok, by simpa using hrows⟩

/-! ## C6 — rows load in foreign-key dependency order -/

theorem pickFirst_spec (p : DBTable → Bool) :
    ∀ (l : List DBTable) (t : DBTable) (rest : List DBTable),
    pickFirst p l = some (t, rest) → p t = true ∧ l.Perm (t :: rest) := by
  intro l
  induction l with
  | nil => intro t rest h; cases h
  | cons a as ih =>
      intro t rest h
      unfold pickFirst at h
      by_cases hp : p a
      · rw [if_pos hp] at h
        injection h with h'
        injection h' with h1 h2
        subst h1; subst h2
        exact ⟨hp, List.Perm.refl _⟩
      · rw [if_neg hp] at h
        cases hrec : pickFirst p as with
        | none => rw [hrec] at h; cases h
        | some ur =>
            obtain ⟨u, rest'⟩ := ur
            rw [hrec] at h
            injection h with h'
            injection h' with h1 h2
            subst h1; subst h2
            obtain ⟨hpu, hperm⟩ := ih u rest' hrec
            exact ⟨hpu, List.Perm.trans (List.Perm.cons a hperm)
              (List.Perm.swap u a rest')⟩

theorem topoGo_spec (allNames : List String) :
    ∀ (fuel : Nat) (acc rem order : List DBTable),
    topoGo allNames fuel acc rem = some order →
    ∃ l, order = acc ++ l ∧ l.Perm rem ∧
      depsBeforeAux allNames (acc.map (·.name)) l := by
  intro fuel
  induction fuel with
  | zero =>
      intro acc rem order h
      cases rem with
      | nil =>
          injection h with h'
          subst h'
          exact ⟨[], by simp, List.Perm.refl _, trivial⟩
      | cons t0 rest0 => cases h
  | succ fuel ih =>
      intro acc rem order h
      cases rem with
      | nil =>
          injection h with h'
          subst h'
          exact ⟨[], by simp, List.Perm.refl _, trivial⟩
      | cons t0 rest0 =>
          unfold topoGo at h
          cases hpick : pickFirst
              (depsSatisfied allNames (acc.map (·.name))) (t0 :: rest0) with
          | none => rw [hpick] at h; cases h
          | some tr =>
              obtain ⟨t, rest⟩ := tr
              rw [hpick] at h
              obtain ⟨hpt, hperm⟩ := pickFirst_spec _ _ _ _ hpick
              obtain ⟨l', horder, hperm', hdeps⟩ := ih (acc ++ [t]) rest order h
              refine ⟨t :: l', ?_, ?_, ?_, ?_⟩
              · rw [horder, List.append_assoc]
                rfl
              · exact List.Perm.trans (List.Perm.cons t hperm')
                  (List.Perm.symm hperm)
              · intro d hd
                have hb := (List.all_eq_true.mp hpt) d hd
                simp only [Bool.or_eq_true, decide_eq_true_eq,
                  Bool.not_eq_true'] at hb
                rcases hb with (h1 | h2) | h3
                · exact Or.inl h1
                · exact Or.inr (Or.inl (List.mem_of_elem_eq_true h2))
                · refine Or.inr (Or.inr fun hc => ?_)
                  have htrue : List.elem d allNames = true :=
                    List.elem_eq_true_of_mem hc
                  have hfalse : List.elem d allNames = false := h3
                  rw [htrue] at hfalse
                  cases hfalse
              · rw [List.map_append] at hdeps
                exact hdeps

theorem depsBeforeAux_extract (allNames : List String) :
    ∀ (xs : List DBTable) (emitted : List String) (u : DBTable)
      (ys : List DBTable),
    depsBeforeAux allNames emitted (xs ++ u :: ys) →
    ∀ d ∈ tableDeps u,
      d = u.name ∨ d ∈ emitted ++ xs.map (·.name) ∨ d ∉ allNames := by
  intro xs
  induction xs with
  | nil =>
      intro emitted u ys h d hd
      rcases h.1 d hd with h1 | h2 | h3
      · exact Or.inl h1
      · exact Or.inr (Or.inl (by simpa using h2))
      · exact Or.inr (Or.inr h3)
  | cons x xs' ih =>
      intro emitted u ys h d hd
      have := ih (emitted ++ [x.name]) u ys h.2 d hd
      rcases this with h1 | h2 | h3
      · exact Or.inl h1
      · refine Or.inr (Or.inl ?_)
        rw [List.append_assoc] at h2
        simpa using h2
      · exact Or.inr (Or.inr h3)

theorem tableRows_fst (models : List String) (data : String → List PyVal)
    (t : DBTable) (r : String × PyVal) (h : r ∈ tableRows models data t) :
    r.1 = t.name := by
  unfold tableRows at h
  by_cases hm : models.contains t.name
  · rw [if_pos hm] at h
    obtain ⟨v, _, hrv⟩ := List.mem_map.mp h
    rw [← hrv]
  · rw [if_neg hm] at h
    cases h

/-- C6: when the dependency sort succeeds, every table `U` with a
foreign-key column referencing a distinct table `T` sits after `T` in
the load order, and the loaded row sequence splits at `U`'s block so
that all of `T`'s rows are loaded strictly before any of `U`'s rows
(self-references are exempt by construction; association tables carry
no model rows). -/
theorem load_respects_fk_dependency_order
    (tables order : List DBTable) (models : List String)
    (data : String → List PyVal) (T U : DBTable)
    (hnodup : (tables.map (·.name)).Nodup)
    (hsort : sorted_tables tables = some order)
    (hT : T ∈ tables) (hU : U ∈ tables)
    (hdep : T.name ∈ tableDeps U)
    (hne : U.name ≠ T.name) :
    ∃ xs ys, order = xs ++ U :: ys ∧ T ∈ xs ∧
      load_all_model_data order models data
        = load_all_model_data xs models data
            ++ load_all_model_data (U :: ys) models data ∧
      (∀ r ∈ load_all_model_data xs models data, r.1 ≠ U.name) ∧
      (∀ r ∈ load_all_model_data (U :: ys) models data, r.1 ≠ T.name) := by
  unfold sorted_tables at hsort
  obtain ⟨l, horder, hperm, hdeps⟩ :=
    topoGo_spec (tables.map (·.name)) tables.length [] tables order hsort
  rw [List.nil_append] at horder
  subst horder
  have hUo : U ∈ order := hperm.mem_iff.symm.mp hU
  have hTo : T ∈ order := hperm.mem_iff.symm.mp hT
  obtain ⟨xs, ys, hsplit⟩ := List.append_of_mem hUo
  have hnodupO : (order.map (·.name)).Nodup :=
    ((hperm.map (·.name)).symm).nodup hnodup
  have hdeps' : depsBeforeAux (tables.map (·.name)) [] (xs ++ U :: ys) := by
    rw [← hsplit]
    simpa using hdeps
  have hex := depsBeforeAux_extract (tables.map (·.name)) xs [] U ys hdeps'
    T.name hdep
  have hTnames : T.name ∈ xs.map (·.name) := by
    rcases hex with h1 | h2 | h3
    · exact absurd h1.symm hne
    · simpa using h2
    · exact absurd (List.mem_map_of_mem (·.name) hT) h3
  obtain ⟨T', hT', hTname⟩ := List.mem_map.mp hTnames
  have hT'o : T' ∈ order := by
    rw [hsplit]
    exact List.mem_append_left _ hT'
  have hTT : T' = T :=
    List.inj_on_of_nodup_map hnodupO hT'o hTo hTname
  subst hTT
  have hnodupSplit : (xs.map (·.name)
      ++ (U :: ys).map (·.name)).Nodup := by
    rw [← List.map_append, ← hsplit]
    exact hnodupO
  have hdisj : (xs.map (·.name)).Disjoint ((U :: ys).map (·.name)) :=
    List.disjoint_of_nodup_append hnodupSplit
  refine ⟨xs, ys, hsplit, hT', ?_, ?_, ?_⟩
  · rw [hsplit]
    exact List.flatMap_append xs (U :: ys) (tableRows models data)
  · intro r hr
    obtain ⟨t, ht, hrt⟩ := List.mem_flatMap.mp hr
    rw [tableRows_fst models data t r hrt]
    intro hc
    apply hdisj (List.mem_map_of_mem (·.name) ht)
    rw [hc, List.map_cons]
    exact List.mem_cons_self _ _
  · intro r hr
    obtain ⟨t, ht, hrt⟩ := List.mem_flatMap.mp hr
    rw [tableRows_fst models data t r hrt]
    intro hc
    exact hdisj (hc ▸ hTnames) (List.mem_map_of_mem (·.name) ht)

/-- Witness for `load_respects_fk_dependency_order`: `Post` carries an
`author_id` foreign key to `Person`; the sort emits `Person` first even
though `Post` was listed first, and `Person`'s rows load before
`Post`'s. -/
theorem load_respects_fk_dependency_order_witness :
    sorted_tables
        [⟨"Post", [⟨"pk", none⟩, ⟨"author_id", some "Person"⟩]⟩,
         ⟨"Person", [⟨"pk", none⟩]⟩]
      = some [⟨"Person", [⟨"pk", none⟩]⟩,
              ⟨"Post", [⟨"pk", none⟩, ⟨"author_id", some "Person"⟩]⟩] ∧
    ∃ xs ys,
      ([⟨"Person", [⟨"pk", none⟩]⟩,
        ⟨"Post", [⟨"pk", none⟩, ⟨"author_id", some "Person"⟩]⟩]
          : List DBTable)
        = xs ++ ⟨"Post", [⟨"pk", none⟩, ⟨"author_id", some "Person"⟩]⟩ :: ys ∧
      (⟨"Person", [⟨"pk", none⟩]⟩ : DBTable) ∈ xs ∧
      load_all_model_data
          [⟨"Person", [⟨"pk", none⟩]⟩,
           ⟨"Post", [⟨"pk", none⟩, ⟨"author_id", some "Person"⟩]⟩]
          ["Person", "Post"]
          (fun n => if n = "Person" then [.scalar (.s "alice")]
                    else [.scalar (.s "p1")])
        = load_all_model_data xs ["Person", "Post"]
            (fun n => if n = "Person" then [.scalar (.s "alice")]
                      else [.scalar (.s "p1")])
            ++ load_all_model_data
                (⟨"Post", [⟨"pk", none⟩, ⟨"author_id", some "Person"⟩]⟩ :: ys)
                ["Person", "Post"]
                (fun n => if n = "Person" then [.scalar (.s "alice")]
                          else [.scalar (.s "p1")]) ∧
      (∀ r ∈ load_all_model_data xs ["Person", "Post"]
            (fun n => if n = "Person" then [.scalar (.s "alice")]
                      else [.scalar (.s "p1")]), r.1 ≠ "Post") ∧
      (∀ r ∈ load_all_model_data
            (⟨"Post", [⟨"pk", none⟩, ⟨"author_id", some "Person"⟩]⟩ :: ys)
            ["Person", "Post"]
            (fun n => if n = "Person" then [.scalar (.s "alice")]
                      else [.scalar (.s "p1")]), r.1 ≠ "Person") :=
  ⟨by decide,
   load_respects_fk_dependency_order
     [⟨"Post", [⟨"pk", none⟩, ⟨"author_id", some "Person"⟩]⟩,
      ⟨"Person", [⟨"pk", none⟩]⟩]
     [⟨"Person", [⟨"pk", none⟩]⟩,
      ⟨"Post", [⟨"pk", none⟩, ⟨"author_id", some "Person"⟩]⟩]
     ["Person", "Post"]
     (fun n => if n = "Person" then [.scalar (.s "alice")]
               else [.scalar (.s "p1")])
     ⟨"Person", [⟨"pk", none⟩]⟩
     ⟨"Post", [⟨"pk", none⟩, ⟨"author_id", some "Person"⟩]⟩
     (by decide) (by decide) (by decide) (by decide) (by decide) (by decide)⟩
